import Mathlib

/-!
Verification of the pokemon-student-system server (src/server.js).

This file is a shallow embedding of the persistence-and-domain-logic layer
of the server: the three persisted collections (students, activity
templates, assigned-activity award records), the request handlers that
read, validate, mutate and persist them, and the aggregation queries
(ranking, stats).  Each handler is translated to a pure Lean function from
the loaded documents and request inputs to a response together with the
documents as persisted after the call.  External inputs that the handlers
read from the environment (`Date.now()`, `new Date().toISOString()`,
`new Date().toLocaleDateString('pt-BR')`) are passed as explicit
arguments.  JS numbers appearing as entity ids and point totals are
modeled as `Int`; JS strings as `String`.
-/

namespace StudentSystem

/-! ## Data model -/

/-- A student record as stored in `students.json`.  Students are created
with no `updatedAt` field; the update and award handlers add it, so it is
modeled as an `Option`. -/
structure Student where
  id : Int
  name : String
  pokemonType : String
  totalPoints : Int
  createdAt : String
  updatedAt : Option String
  deriving DecidableEq

/-- An activity template as stored in `created-activities.json`. -/
structure ActivityTemplate where
  id : Int
  name : String
  defaultPoints : Int
  description : String
  createdAt : String
  deriving DecidableEq

/-- An assigned-activity (award) record as stored in `activities.json`. -/
structure ActivityRecord where
  id : Int
  studentId : Int
  activityId : Int
  name : String
  points : Int
  date : String
  createdAt : String
  deriving DecidableEq

/-- The three persisted documents (`students.json`, `activities.json`,
`created-activities.json`), each a JSON array.  Every handler loads the
documents it needs from here and the store after the handler holds the
documents as persisted by the handler's writes. -/
structure Store where
  students : List Student
  activities : List ActivityRecord
  createdActivities : List ActivityTemplate
  deriving DecidableEq

/-- The error taxonomy of the handlers: 400 (missing/out-of-range input or
unparsable id), 409 (duplicate name), 404 (unknown id). -/
inductive ApiError
  | invalidArgument
  | conflict
  | notFound
  deriving DecidableEq

/-! ## JS string primitives

`String.prototype.toLowerCase` and `String.prototype.trim`, modeled over
the character list of the string (ASCII case folding and the common
whitespace set, which is all the server's data needs). -/

/-- JS `toLowerCase` on one character (ASCII range). -/
def jsLowerChar (c : Char) : Char :=
  if 'A' ≤ c ∧ c ≤ 'Z' then Char.ofNat (c.toNat + 32) else c

/-- JS `String.prototype.toLowerCase`. -/
def jsToLower (s : String) : String := String.mk (s.data.map jsLowerChar)

/-- JS whitespace as removed by `String.prototype.trim`. -/
def jsIsWhitespace (c : Char) : Bool :=
  c = ' ' ∨ c = '\t' ∨ c = '\n' ∨ c = '\r'

/-- JS `String.prototype.trim`: strip leading and trailing whitespace. -/
def jsTrim (s : String) : String :=
  String.mk (((s.data.dropWhile jsIsWhitespace).reverse.dropWhile jsIsWhitespace).reverse)

/-! ## Student registry handlers -/

/-- POST /api/students (src/server.js lines 72-123).  Validates that
`name` and `pokemonType` are present and truthy (for strings, JS
falsiness means the empty string), rejects the request with 409 when some
stored student's name equals the *untrimmed* request name
case-insensitively, and otherwise appends a student with the trimmed
name, zero points and a fresh id/timestamp (`nowId` models `Date.now()`,
`nowISO` models `new Date().toISOString()`). -/
def postStudents (st : Store) (name pokemonType : String) (nowId : Int)
    (nowISO : String) : Except ApiError Student × Store :=
  if name = "" ∨ pokemonType = "" then (.error .invalidArgument, st)
  else
    match st.students.find? (fun s => jsToLower s.name == jsToLower name) with
    | some _ => (.error .conflict, st)
    | none =>
      let newStudent : Student :=
        { id := nowId, name := jsTrim name, pokemonType := pokemonType,
          totalPoints := 0, createdAt := nowISO, updatedAt := none }
      (.ok newStudent, { st with students := st.students ++ [newStudent] })

/-- Replace the first element satisfying `p` by its image under `f`,
leaving everything else in place: the JS idiom
`arr[arr.findIndex(p)] = f(arr[arr.findIndex(p)])` (in-place mutation of
the first match). -/
def updateFirst (p : α → Bool) (f : α → α) : List α → List α
  | [] => []
  | x :: xs => if p x then f x :: xs else x :: updateFirst p f xs

/-- PUT /api/students/:id (src/server.js lines 126-169).  The id path
parameter is modeled after `parseInt`: `none` stands for `NaN` (an
unparsable id) and yields 400.  An id with no matching student yields
404.  When `totalPoints` is supplied it overwrites the stored total and
stamps `updatedAt`; when it is absent the record is written back
unchanged.  The response carries the (possibly updated) first matching
student. -/
def putStudent (st : Store) (idParam : Option Int) (totalPoints : Option Int)
    (nowISO : String) : Except ApiError Student × Store :=
  match idParam with
  | none => (.error .invalidArgument, st)
  | some studentId =>
    match st.students.find? (fun s => s.id == studentId) with
    | none => (.error .notFound, st)
    | some s =>
      match totalPoints with
      | none => (.ok s, st)
      | some tp =>
        let upd : Student → Student :=
          fun x => { x with totalPoints := tp, updatedAt := some nowISO }
        (.ok (upd s),
         { st with students := updateFirst (fun x => x.id == studentId) upd st.students })

/-- DELETE /api/students/:id (src/server.js lines 172-208).  `none`
models an unparsable id (`NaN`).  The handler keeps every student whose
id differs from the parameter and answers 404 when that removes
nothing. -/
def deleteStudent (st : Store) (idParam : Option Int) : Except ApiError Unit × Store :=
  match idParam with
  | none => (.error .invalidArgument, st)
  | some studentId =>
    let filteredStudents := st.students.filter (fun s => s.id != studentId)
    if filteredStudents.length = st.students.length then (.error .notFound, st)
    else (.ok (), { st with students := filteredStudents })

/-! ## Activity catalog handlers -/

/-- POST /api/created-activities (src/server.js lines 231-289).
`defaultPoints` is modeled as `Option Int` (`none` = absent); the JS
falsiness check `!defaultPoints` rejects both an absent value and the
number 0.  Out-of-range points yield 400, a case-insensitive duplicate
name yields 409, otherwise the template is appended with the trimmed
name and trimmed (or empty) description. -/
def postCreatedActivities (st : Store) (name : String) (defaultPoints : Option Int)
    (description : Option String) (nowId : Int) (nowISO : String) :
    Except ApiError ActivityTemplate × Store :=
  if name = "" ∨ defaultPoints = none ∨ defaultPoints = some 0 then
    (.error .invalidArgument, st)
  else
    match defaultPoints with
    | none => (.error .invalidArgument, st)
    | some dp =>
      if dp < 1 ∨ 100 < dp then (.error .invalidArgument, st)
      else
        match st.createdActivities.find? (fun a => jsToLower a.name == jsToLower name) with
        | some _ => (.error .conflict, st)
        | none =>
          let newActivity : ActivityTemplate :=
            { id := nowId, name := jsTrim name, defaultPoints := dp,
              description := (description.map jsTrim).getD "", createdAt := nowISO }
          (.ok newActivity,
           { st with createdActivities := st.createdActivities ++ [newActivity] })

/-- DELETE /api/created-activities/:id (src/server.js lines 292-328):
same shape as the student delete, over the activity templates. -/
def deleteCreatedActivity (st : Store) (idParam : Option Int) : Except ApiError Unit × Store :=
  match idParam with
  | none => (.error .invalidArgument, st)
  | some activityId =>
    let filteredActivities := st.createdActivities.filter (fun a => a.id != activityId)
    if filteredActivities.length = st.createdActivities.length then (.error .notFound, st)
    else (.ok (), { st with createdActivities := filteredActivities })

/-! ## Award ledger handler -/

/-- The success payload of POST /api/activities: the appended award
record, the updated student (the mutated `students[studentIndex]`), the
`evolved` flag and the new capped level. -/
structure AwardResult where
  activity : ActivityRecord
  student : Student
  evolved : Bool
  newLevel : Int
  deriving DecidableEq

/-- POST /api/activities (src/server.js lines 351-441).  Body fields are
modeled as `Option Int` (`none` = absent); the falsiness check
`!studentId || !activityId || !points` also rejects the number 0.
Points outside [1,100] yield 400; an unknown student id (checked first)
or template id yields 404.  On success the first matching student's
total is incremented by `points` and `updatedAt` is stamped, a
denormalized award record is appended, and both documents are persisted.
The levels are `Math.min(2, Math.floor(total / 100))` computed from the
totals before and after the increment (`Math.floor` on the JS float
division of integers is floor division, `Int.fdiv`). -/
def postActivities (st : Store) (studentId activityId points : Option Int)
    (nowId : Int) (nowDate nowISO : String) : Except ApiError AwardResult × Store :=
  match studentId, activityId, points with
  | some sid, some aid, some pts =>
    if sid = 0 ∨ aid = 0 ∨ pts = 0 then (.error .invalidArgument, st)
    else if pts < 1 ∨ 100 < pts then (.error .invalidArgument, st)
    else
      match st.students.find? (fun s => s.id == sid) with
      | none => (.error .notFound, st)
      | some student =>
        match st.createdActivities.find? (fun a => a.id == aid) with
        | none => (.error .notFound, st)
        | some createdActivity =>
          let oldPoints := student.totalPoints
          let upd : Student → Student :=
            fun x => { x with totalPoints := x.totalPoints + pts, updatedAt := some nowISO }
          let newStudents := updateFirst (fun s => s.id == sid) upd st.students
          let updatedStudent := upd student
          let newActivityRecord : ActivityRecord :=
            { id := nowId, studentId := sid, activityId := aid,
              name := createdActivity.name, points := pts,
              date := nowDate, createdAt := nowISO }
          let oldLevel := min 2 (Int.fdiv oldPoints 100)
          let newLevel := min 2 (Int.fdiv updatedStudent.totalPoints 100)
          (.ok { activity := newActivityRecord, student := updatedStudent,
                 evolved := decide (oldLevel < newLevel), newLevel := newLevel },
           { st with students := newStudents,
                     activities := st.activities ++ [newActivityRecord] })
  | _, _, _ => (.error .invalidArgument, st)

/-- The inputs of one POST /api/activities call, bundling the request
body with the environment values the handler reads. -/
structure AwardCall where
  studentId : Option Int
  activityId : Option Int
  points : Option Int
  nowId : Int
  nowDate : String
  nowISO : String
  deriving DecidableEq

/-- Apply one award call to the store. -/
def applyAward (st : Store) (c : AwardCall) : Except ApiError AwardResult × Store :=
  postActivities st c.studentId c.activityId c.points c.nowId c.nowDate c.nowISO

/-- The store after a sequence of award calls. -/
def runAwards (st : Store) : List AwardCall → Store
  | [] => st
  | c :: cs => runAwards (applyAward st c).2 cs

/-- All calls in the sequence succeed, each against the store left by
the previous ones. -/
def awardsSucceed (st : Store) : List AwardCall → Bool
  | [] => true
  | c :: cs =>
    match (applyAward st c).1 with
    | .ok _ => awardsSucceed (applyAward st c).2 cs
    | .error _ => false

/-! ## Aggregation queries -/

/-- The comparator of GET /api/ranking, `(a, b) => b.totalPoints -
a.totalPoints`: `a` may precede `b` when its total is at least `b`'s
(descending order). -/
def byPointsDesc (a b : Student) : Prop := b.totalPoints ≤ a.totalPoints

instance : DecidableRel byPointsDesc :=
  fun a b => inferInstanceAs (Decidable (b.totalPoints ≤ a.totalPoints))

instance : IsTotal Student byPointsDesc :=
  ⟨fun a b => Int.le_total b.totalPoints a.totalPoints⟩

instance : IsTrans Student byPointsDesc :=
  ⟨fun _ _ _ hab hbc => le_trans hbc hab⟩

/-- GET /api/ranking (src/server.js lines 475-505).  The optional
`pokemon` query parameter filters by exact `pokemonType` match unless it
is absent, empty (falsy) or the literal string `"all"`; the filtered
list is sorted by `totalPoints` descending (a stable sort, as V8's) and
truncated to `limit` (default 5); `total` is the filtered count before
truncation. -/
def getRanking (students : List Student) (pokemon : Option String) (limit : Nat) :
    List Student × Nat :=
  let filteredStudents : List Student :=
    match pokemon with
    | some p =>
      if p ≠ "" ∧ p ≠ "all" then students.filter (fun s => s.pokemonType == p)
      else students
    | none => students
  ((filteredStudents.insertionSort byPointsDesc).take limit, filteredStudents.length)

/-- Math.min(2, Math.floor(points / 100)): the capped level of a point
total. -/
def levelOf (points : Int) : Int := min 2 (Int.fdiv points 100)

/-- The JS idiom `counts[key] = (counts[key] || 0) + 1`: bump one key of a counting
map (the JS object accumulated by `reduce`, modeled as a function that
is 0 outside the keys inserted so far). -/
def bumpCount [DecidableEq α] (counts : α → Nat) (key : α) : α → Nat :=
  fun k => if k = key then counts k + 1 else counts k

/-- Math.round(num / den) for an integer numerator and a positive
integer denominator: JS rounds half away from minus infinity,
`Math.round(x) = Math.floor(x + 0.5)`, and on the exact rational
`num / den` that is `⌊(2 * num + den) / (2 * den)⌋`. -/
def jsRound (num : Int) (den : Nat) : Int := Int.fdiv (2 * num + den) (2 * den)

/-- The payload of GET /api/stats.  The two distributions are the JS
objects built by `reduce`, modeled as total counting functions. -/
structure Stats where
  totalStudents : Nat
  totalActivities : Nat
  totalActivitiesAssigned : Nat
  totalPoints : Int
  averagePoints : Int
  pokemonDistribution : String → Nat
  evolutionDistribution : Int → Nat

/-- GET /api/stats (src/server.js lines 508-552): totals, the rounded
average (0 when there are no students), and the per-type and
per-capped-level counts. -/
def getStats (st : Store) : Stats :=
  let totalPoints := st.students.foldl (fun (sum : Int) s => sum + s.totalPoints) 0
  let avgPoints :=
    if 0 < st.students.length then jsRound totalPoints st.students.length else 0
  let pokemonCount :=
    st.students.foldl (fun (counts : String → Nat) s => bumpCount counts s.pokemonType)
      (fun _ => 0)
  let evolutionLevels :=
    st.students.foldl (fun (levels : Int → Nat) s => bumpCount levels (levelOf s.totalPoints))
      (fun _ => 0)
  { totalStudents := st.students.length
    totalActivities := st.createdActivities.length
    totalActivitiesAssigned := st.activities.length
    totalPoints := totalPoints
    averagePoints := avgPoints
    pokemonDistribution := pokemonCount
    evolutionDistribution := evolutionLevels }

/-! ## Document store

`readJSONFile` (src/server.js lines 30-38) wraps `fs.readFile` and
`JSON.parse` in a try/catch and returns a default on any failure;
`writeJSONFile` (lines 41-43) writes `JSON.stringify(data, null, 2)`.
The filesystem and the two JSON primitives are external collaborators;
the read result and the parse function are therefore explicit inputs of
the generic `readJSONFile`, each fallible (`Except`, modeling a thrown
exception).  The serialized documents of this server are JSON arrays of
flat records whose fields are integers and strings (timestamps are
strings), so a concrete serializer and parser for exactly that fragment
instantiate the generic functions below.  The `null, 2` indentation
argument only inserts whitespace, which carries no meaning in JSON, and
is not reproduced. -/

/-- readJSONFile (src/server.js lines 30-38): `try { return
JSON.parse(await fs.readFile(path)) } catch { return defaultValue }`.
The function is total: every failure of the read or of the parse is
caught and mapped to `defaultValue`, never surfaced to the caller. -/
def readJSONFile {α : Type} (readResult : Except String String)
    (parse : String → Except String α) (defaultValue : α) : α :=
  match readResult with
  | .error _ => defaultValue
  | .ok data =>
    match parse data with
    | .error _ => defaultValue
    | .ok value => value

/-- The filesystem, as the handlers see it: a map from path to contents;
`none` models a missing or unreadable file. -/
def FileStore := String → Option String

/-- The read primitive `fs.readFile`: the contents, or a thrown ENOENT error. -/
def fsRead (fs : FileStore) (filePath : String) : Except String String :=
  match fs filePath with
  | none => Except.error "ENOENT"
  | some data => Except.ok data

/-! ## JSON values of the stored documents -/

/-- A JSON field value of the modeled field types: integers and strings
(ISO-8601 and locale-formatted timestamps are strings). -/
inductive JValue
  | jint (i : Int)
  | jstr (s : String)
  deriving DecidableEq

/-- A stored document: a JSON array of flat records, each an ordered
list of named fields. -/
def JDoc := List (List (String × JValue))

/-! ### Serialization (JSON.stringify on the modeled fragment) -/

/-- Decimal digit character. -/
def decDigit (n : Nat) : Char := Char.ofNat (48 + n)

/-- Lower-case hexadecimal digit character. -/
def hexDigit (n : Nat) : Char :=
  if n < 10 then Char.ofNat (48 + n) else Char.ofNat (87 + n)

/-- The decimal digits of a natural number, most significant first. -/
def natDigits (n : Nat) : List Char :=
  if _ : n < 10 then [decDigit n]
  else natDigits (n / 10) ++ [decDigit (n % 10)]
decreasing_by exact Nat.div_lt_self (by omega) (by omega)

/-- JSON.stringify of an integer. -/
def serializeInt (i : Int) : List Char :=
  if i < 0 then '-' :: natDigits i.natAbs else natDigits i.toNat

/-- JSON.stringify's escape of one character inside a string literal:
quote, backslash and the named control characters get a two-character
escape, the remaining control characters a `\u00XX` escape, everything
else stands for itself. -/
def escapeChar (c : Char) : List Char :=
  if c = '"' then ['\\', '"']
  else if c = '\\' then ['\\', '\\']
  else if c = '\n' then ['\\', 'n']
  else if c = '\r' then ['\\', 'r']
  else if c = '\t' then ['\\', 't']
  else if c = Char.ofNat 8 then ['\\', 'b']
  else if c = Char.ofNat 12 then ['\\', 'f']
  else if c.toNat < 32 then
    ['\\', 'u', '0', '0', hexDigit (c.toNat / 16), hexDigit (c.toNat % 16)]
  else [c]

/-- Escape every character of a string body. -/
def escapeChars : List Char → List Char
  | [] => []
  | c :: cs => escapeChar c ++ escapeChars cs

/-- JSON.stringify of a field value. -/
def serializeJValue : JValue → List Char
  | .jint i => serializeInt i
  | .jstr s => '"' :: (escapeChars s.data ++ ['"'])

/-- JSON.stringify of one `"key":value` field. -/
def serializeField (f : String × JValue) : List Char :=
  '"' :: (escapeChars f.1.data ++ ['"', ':'] ++ serializeJValue f.2)

/-- The remaining fields of a record, each preceded by a comma. -/
def joinFields : List (String × JValue) → List Char
  | [] => []
  | f :: fs => ',' :: (serializeField f ++ joinFields fs)

/-- All fields of a record, comma-separated. -/
def serializeFields : List (String × JValue) → List Char
  | [] => []
  | f :: fs => serializeField f ++ joinFields fs

/-- JSON.stringify of one record. -/
def serializeRecord (r : List (String × JValue)) : List Char :=
  '{' :: (serializeFields r ++ ['}'])

/-- The remaining records of the array, each preceded by a comma. -/
def joinRecords : JDoc → List Char
  | [] => []
  | r :: rs => ',' :: (serializeRecord r ++ joinRecords rs)

/-- All records of the array, comma-separated. -/
def serializeRecords : JDoc → List Char
  | [] => []
  | r :: rs => serializeRecord r ++ joinRecords rs

/-- JSON.stringify of a stored document. -/
def stringifyDoc (d : JDoc) : String :=
  String.mk ('[' :: (serializeRecords d ++ [']']))

/-! ### Parsing (JSON.parse on the modeled fragment)

Each parser consumes characters from the front and returns the parsed
value with the unconsumed rest, or `none` on malformed input (modeling
the `SyntaxError` thrown by JSON.parse).  The two list parsers take a
fuel argument, decremented once per comma, so that every recursion is
structural; the top-level parser supplies the input length as fuel,
which the round-trip proof shows is always enough. -/

/-- The value of one hexadecimal digit. -/
def hexVal (c : Char) : Option Nat :=
  if '0' ≤ c ∧ c ≤ '9' then some (c.toNat - 48)
  else if 'a' ≤ c ∧ c ≤ 'f' then some (c.toNat - 87)
  else if 'A' ≤ c ∧ c ≤ 'F' then some (c.toNat - 55)
  else none

/-- Decode a two-character escape (the character after the backslash). -/
def unescapeChar (e : Char) : Option Char :=
  if e = '"' then some '"'
  else if e = '\\' then some '\\'
  else if e = '/' then some '/'
  else if e = 'n' then some '\n'
  else if e = 'r' then some '\r'
  else if e = 't' then some '\t'
  else if e = 'b' then some (Char.ofNat 8)
  else if e = 'f' then some (Char.ofNat 12)
  else none

/-- Parse a string body up to and including the closing quote, decoding
escapes; the opening quote has already been consumed. -/
def parseStringBody : List Char → Option (List Char × List Char)
  | [] => none
  | c :: cs =>
    if c = '"' then some ([], cs)
    else if c = '\\' then
      match cs with
      | [] => none
      | e :: cs₂ =>
        if e = 'u' then
          match cs₂ with
          | h₁ :: h₂ :: h₃ :: h₄ :: cs₃ =>
            match hexVal h₁, hexVal h₂, hexVal h₃, hexVal h₄ with
            | some v₁, some v₂, some v₃, some v₄ =>
              match parseStringBody cs₃ with
              | some (out, rest) =>
                some (Char.ofNat (((v₁ * 16 + v₂) * 16 + v₃) * 16 + v₄) :: out, rest)
              | none => none
            | _, _, _, _ => none
          | _ => none
        else
          match unescapeChar e with
          | some d =>
            match parseStringBody cs₂ with
            | some (out, rest) => some (d :: out, rest)
            | none => none
          | none => none
    else
      match parseStringBody cs with
      | some (out, rest) => some (c :: out, rest)
      | none => none

/-- Consume decimal digits, accumulating their value; stops at the
first non-digit. -/
def parseNatDigits : List Char → Nat → Nat × List Char
  | [], acc => (acc, [])
  | c :: cs, acc =>
    if c.isDigit then parseNatDigits cs (acc * 10 + (c.toNat - 48)) else (acc, c :: cs)

/-- Parse a natural number: at least one digit. -/
def parseNat : List Char → Option (Nat × List Char)
  | [] => none
  | c :: cs => if c.isDigit then some (parseNatDigits (c :: cs) 0) else none

/-- Parse an integer: an optional minus sign and digits. -/
def parseIntChars : List Char → Option (Int × List Char)
  | [] => none
  | c :: cs =>
    if c = '-' then
      match parseNat cs with
      | some (n, rest) => some (-(n : Int), rest)
      | none => none
    else
      match parseNat (c :: cs) with
      | some (n, rest) => some ((n : Int), rest)
      | none => none

/-- Parse a field value: a string if it opens with a quote, otherwise an
integer. -/
def parseJValue (cs : List Char) : Option (JValue × List Char) :=
  match cs with
  | [] => none
  | c :: cs₂ =>
    if c = '"' then
      match parseStringBody cs₂ with
      | some (out, rest) => some (.jstr (String.mk out), rest)
      | none => none
    else
      match parseIntChars (c :: cs₂) with
      | some (i, rest) => some (.jint i, rest)
      | none => none

/-- Parse one `"key":value` field. -/
def parseField (cs : List Char) : Option ((String × JValue) × List Char) :=
  match cs with
  | '"' :: cs₂ =>
    match parseStringBody cs₂ with
    | some (key, rest) =>
      match rest with
      | ':' :: rest₂ =>
        match parseJValue rest₂ with
        | some (v, rest₃) => some ((String.mk key, v), rest₃)
        | none => none
      | _ => none
    | none => none
  | _ => none

/-- After one field of a record: a closing brace ends the record, a
comma introduces the next field. -/
def parseFieldsTail : Nat → List Char → Option (List (String × JValue) × List Char)
  | _, '}' :: rest => some ([], rest)
  | fuel + 1, ',' :: cs =>
    match parseField cs with
    | some (f, rest) =>
      match parseFieldsTail fuel rest with
      | some (fs, rest₂) => some (f :: fs, rest₂)
      | none => none
    | none => none
  | _, _ => none

/-- The body of a record, after the opening brace: empty, or a first
field followed by its tail. -/
def parseRecordBody (fuel : Nat) (cs : List Char) :
    Option (List (String × JValue) × List Char) :=
  match cs with
  | [] => none
  | c :: cs₂ =>
    if c = '}' then some ([], cs₂)
    else
      match parseField (c :: cs₂) with
      | some (f, rest) =>
        match parseFieldsTail fuel rest with
        | some (fs, rest₂) => some (f :: fs, rest₂)
        | none => none
      | none => none

/-- Parse one record: an opening brace and its body. -/
def parseRecord (fuel : Nat) (cs : List Char) :
    Option (List (String × JValue) × List Char) :=
  match cs with
  | '{' :: cs₂ => parseRecordBody fuel cs₂
  | _ => none

/-- After one record of the array: a closing bracket ends the array, a
comma introduces the next record. -/
def parseRecordsTail : Nat → List Char → Option (JDoc × List Char)
  | _, ']' :: rest => some ([], rest)
  | fuel + 1, ',' :: cs =>
    match parseRecord (fuel + 1) cs with
    | some (r, rest) =>
      match parseRecordsTail fuel rest with
      | some (rs, rest₂) => some (r :: rs, rest₂)
      | none => none
    | none => none
  | _, _ => none

/-- The body of the array, after the opening bracket: empty, or a first
record followed by its tail. -/
def parseRecordsStart (fuel : Nat) (cs : List Char) : Option (JDoc × List Char) :=
  match cs with
  | [] => none
  | c :: cs₂ =>
    if c = ']' then some ([], cs₂)
    else
      match parseRecord fuel (c :: cs₂) with
      | some (r, rest) =>
        match parseRecordsTail fuel rest with
        | some (rs, rest₂) => some (r :: rs, rest₂)
        | none => none
      | none => none

/-- Parse a stored document from its characters. -/
def parseDocChars (cs : List Char) : Option (JDoc × List Char) :=
  match cs with
  | '[' :: cs₂ => parseRecordsStart cs₂.length cs₂
  | _ => none

/-- JSON.parse on the modeled fragment: the whole input must be
consumed. -/
def parseDoc (s : String) : Option JDoc :=
  match parseDocChars s.data with
  | some (d, []) => some d
  | _ => none

/-- JSON.parse as a fallible function: a failed parse is the thrown
`SyntaxError`. -/
def jsonParseDoc (s : String) : Except String JDoc :=
  match parseDoc s with
  | some d => Except.ok d
  | none => Except.error "SyntaxError"

/-- Load one stored document: read the file and parse it, with a
default for any failure (src/server.js lines 30-38 instantiated at the
documents this server stores). -/
def readJSONDoc (fs : FileStore) (filePath : String) (defaultValue : JDoc) : JDoc :=
  readJSONFile (fsRead fs filePath) jsonParseDoc defaultValue

/-- writeJSONFile (src/server.js lines 41-43): serialize the document
and overwrite the whole file. -/
def writeJSONFile (fs : FileStore) (filePath : String) (data : JDoc) : FileStore :=
  fun p => if p = filePath then some (stringifyDoc data) else fs p

/-! ## Theorems -/

instance {ε α : Type} [DecidableEq ε] [DecidableEq α] : DecidableEq (Except ε α) :=
  fun x y =>
    match x, y with
    | .ok a, .ok b => if h : a = b then isTrue (by rw [h]) else isFalse (by simp [h])
    | .error a, .error b => if h : a = b then isTrue (by rw [h]) else isFalse (by simp [h])
    | .ok _, .error _ => isFalse (by simp)
    | .error _, .ok _ => isFalse (by simp)

/-- C9: when the `pokemon` query parameter is the literal string "all"
the category filter is skipped entirely, so the ranking response (list
and total) is identical to the response of a query with no category
parameter. -/
theorem ranking_all_equals_unfiltered (students : List Student) (limit : Nat) :
    getRanking students (some "all") limit = getRanking students none limit := by
  simp [getRanking]

/-- A one-student registry: Ash, stored with the trimmed name `"Ash"`. -/
def ashStudent : Student :=
  { id := 1, name := "Ash", pokemonType := "Electric", totalPoints := 0,
    createdAt := "2024-01-01T00:00:00.000Z", updatedAt := none }

/-- The store holding only `ashStudent`. -/
def storeWithAsh : Store :=
  { students := [ashStudent], activities := [], createdActivities := [] }

/-- C1 counterexample: the request name `" Ash "` trims to `"Ash"`,
which matches the stored name case-insensitively, yet the handler does
not answer Conflict and the registry changes: the duplicate check
compares the untrimmed request name, so whitespace padding slips past
it and a second "Ash" is stored. -/
theorem createStudent_padded_duplicate_slips_through :
    jsToLower (jsTrim " Ash ") = jsToLower ashStudent.name ∧
    (postStudents storeWithAsh " Ash " "Fire" 2 "t1").1 ≠ Except.error ApiError.conflict ∧
    (postStudents storeWithAsh " Ash " "Fire" 2 "t1").2 ≠ storeWithAsh := by
  decide

/-- C1 amended: for a creation request with non-empty name and category
whose name, exactly as sent (untrimmed), matches some stored student's
name case-insensitively, the handler answers Conflict and the store is
unchanged. -/
theorem createStudent_untrimmed_duplicate_conflict
    (st : Store) (name pokemonType : String) (nowId : Int) (nowISO : String)
    (s : Student) (hname : name ≠ "") (htype : pokemonType ≠ "")
    (hmem : s ∈ st.students) (hmatch : jsToLower s.name = jsToLower name) :
    postStudents st name pokemonType nowId nowISO = (.error .conflict, st) := by
  have hfind : (st.students.find? (fun x => jsToLower x.name == jsToLower name)).isSome := by
    rw [List.find?_isSome]
    exact ⟨s, hmem, by simp [hmatch]⟩
  obtain ⟨t, ht⟩ := Option.isSome_iff_exists.mp hfind
  unfold postStudents
  rw [if_neg (by simp [hname, htype]), ht]

/-- Witness for the amended C1 at a concrete conflicting request. -/
theorem createStudent_untrimmed_duplicate_conflict_witness :
    postStudents storeWithAsh "ASH" "Fire" 2 "t1" =
      (Except.error ApiError.conflict, storeWithAsh) :=
  createStudent_untrimmed_duplicate_conflict storeWithAsh "ASH" "Fire" 2 "t1"
    ashStudent (by decide) (by decide) (by decide) (by decide)

/-- C7: the document loader returns the parsed value when the read and
the parse both succeed, and returns the default when the read fails
(missing or unreadable file) or the parse fails (corrupt file); being a
total function, it never propagates a failure to its caller. -/
theorem readJSONFile_spec {α : Type} (readResult : Except String String)
    (parse : String → Except String α) (defaultValue : α) :
    (∀ data value, readResult = Except.ok data → parse data = Except.ok value →
      readJSONFile readResult parse defaultValue = value) ∧
    (∀ msg, readResult = Except.error msg →
      readJSONFile readResult parse defaultValue = defaultValue) ∧
    (∀ data msg, readResult = Except.ok data → parse data = Except.error msg →
      readJSONFile readResult parse defaultValue = defaultValue) := by
  refine ⟨?_, ?_, ?_⟩ <;> intros <;> simp_all [readJSONFile]

/-- A concrete parse function for the C7 witness. -/
def parseAsLength : String → Except String Nat := fun s => Except.ok s.length

/-- Witness for C7 on a concrete successful read and parse. -/
theorem readJSONFile_spec_witness :
    readJSONFile (Except.ok "abc") parseAsLength 0 = 3 :=
  (readJSONFile_spec (Except.ok "abc") parseAsLength 0).1 "abc" 3 rfl rfl

/-- Floor division by a positive natural is the floor of the exact
rational quotient (`Math.floor` on a JS float division of integers). -/
theorem fdiv_eq_ratFloor (a : Int) (b : Nat) (hb : 0 < b) :
    Int.fdiv a b = ⌊(a : ℚ) / (b : ℚ)⌋ := by
  rw [Rat.floor_intCast_div_natCast a b]
  exact Int.fdiv_eq_ediv a (by positivity)

/-- Everything a successful POST /api/activities call determines: the
student and template were found, the response fields, the two persisted
documents, and the points bounds. -/
theorem postActivities_ok (st : Store) (sid aid pts : Int) (nid : Int)
    (nd niso : String) (r : AwardResult) (st₂ : Store)
    (h : postActivities st (some sid) (some aid) (some pts) nid nd niso = (.ok r, st₂)) :
    ∃ s a, st.students.find? (fun x => x.id == sid) = some s ∧
      st.createdActivities.find? (fun x => x.id == aid) = some a ∧
      r.student = { s with totalPoints := s.totalPoints + pts, updatedAt := some niso } ∧
      r.activity = { id := nid, studentId := sid, activityId := aid, name := a.name,
                     points := pts, date := nd, createdAt := niso } ∧
      r.newLevel = min 2 (Int.fdiv (s.totalPoints + pts) 100) ∧
      r.evolved = decide (min 2 (Int.fdiv s.totalPoints 100) <
        min 2 (Int.fdiv (s.totalPoints + pts) 100)) ∧
      st₂.students = updateFirst (fun x => x.id == sid)
        (fun x => { x with totalPoints := x.totalPoints + pts, updatedAt := some niso })
        st.students ∧
      st₂.activities = st.activities ++ [r.activity] ∧
      st₂.createdActivities = st.createdActivities ∧
      1 ≤ pts ∧ pts ≤ 100 := by
  simp only [postActivities] at h
  by_cases h0 : sid = 0 ∨ aid = 0 ∨ pts = 0
  · simp [h0] at h
  by_cases h1 : pts < 1 ∨ 100 < pts
  · simp [h0, h1] at h
  rcases hs : st.students.find? (fun x => x.id == sid) with _ | s <;> rw [hs] at h
  · simp [h0, h1] at h
  rcases ha : st.createdActivities.find? (fun x => x.id == aid) with _ | a <;> rw [ha] at h
  · simp [h0, h1] at h
  simp only [if_neg h0, if_neg h1, Prod.mk.injEq, Except.ok.injEq] at h
  obtain ⟨hr, hst⟩ := h
  refine ⟨s, a, hs, ha, ?_, ?_, ?_, ?_, ?_, ?_, ?_, ?_, ?_⟩
  · rw [← hr]
  · rw [← hr]
  · rw [← hr]
  · rw [← hr]
  · rw [← hst]
  · rw [← hst, ← hr]
  · rw [← hst]
  · omega
  · omega

/-- C2: on every successful award with old total `t` and points `p`,
the response's `newLevel` is `min 2 ⌊(t + p) / 100⌋` and `evolved`
holds exactly when that capped level strictly exceeds
`min 2 ⌊t / 100⌋`; any new total at or above 200 gives level 2. -/
theorem awardPoints_evolution_spec (st : Store) (sid aid pts : Int) (nid : Int)
    (nd niso : String) (r : AwardResult) (st₂ : Store) (s : Student)
    (h : postActivities st (some sid) (some aid) (some pts) nid nd niso = (.ok r, st₂))
    (hs : st.students.find? (fun x => x.id == sid) = some s) :
    r.newLevel = min 2 ⌊((s.totalPoints + pts : Int) : ℚ) / 100⌋ ∧
    (r.evolved = true ↔
      min 2 ⌊((s.totalPoints : Int) : ℚ) / 100⌋ <
        min 2 ⌊((s.totalPoints + pts : Int) : ℚ) / 100⌋) ∧
    (200 ≤ s.totalPoints + pts → r.newLevel = 2) := by
  obtain ⟨s₀, a₀, hs₀, _, _, _, hlvl, hev, _, _, _, _, _⟩ :=
    postActivities_ok st sid aid pts nid nd niso r st₂ h
  rw [hs₀] at hs
  injection hs with hss
  subst hss
  have hcast : ∀ t : Int, Int.fdiv t 100 = ⌊(t : ℚ) / 100⌋ := by
    intro t
    have := fdiv_eq_ratFloor t 100 (by norm_num)
    rwa [Nat.cast_ofNat] at this
  refine ⟨?_, ?_, ?_⟩
  · rw [hlvl, hcast]
  · rw [hev, decide_eq_true_iff, hcast, hcast]
  · intro h200
    rw [hlvl]
    have h2 : (2 : Int) ≤ Int.fdiv (s₀.totalPoints + pts) 100 := by
      rw [Int.fdiv_eq_ediv _ (by norm_num)]
      rw [Int.le_ediv_iff_mul_le (by norm_num)]
      omega
    omega

/-- A student at 95 points, about to evolve. -/
def mistyStudent : Student :=
  { id := 1, name := "Misty", pokemonType := "Water", totalPoints := 95,
    createdAt := "t0", updatedAt := none }

/-- A reusable activity template. -/
def questTemplate : ActivityTemplate :=
  { id := 10, name := "Quest", defaultPoints := 10, description := "",
    createdAt := "t0" }

/-- The store before the witness award. -/
def storeBeforeAward : Store :=
  { students := [mistyStudent], activities := [], createdActivities := [questTemplate] }

/-- The response of the witness award: 95 + 10 crosses the first level
boundary. -/
def awardResW : AwardResult :=
  { activity := { id := 99, studentId := 1, activityId := 10, name := "Quest",
                  points := 10, date := "d1", createdAt := "t1" },
    student := { mistyStudent with totalPoints := 105, updatedAt := some "t1" },
    evolved := true, newLevel := 1 }

/-- The store after the witness award. -/
def storeAfterAward : Store :=
  { students := [{ mistyStudent with totalPoints := 105, updatedAt := some "t1" }],
    activities := [awardResW.activity],
    createdActivities := [questTemplate] }

/-- Witness for C2: awarding 10 points at old total 95 reports
newLevel 1 and an evolution. -/
theorem awardPoints_evolution_spec_witness :
    awardResW.newLevel = min 2 ⌊((mistyStudent.totalPoints + 10 : Int) : ℚ) / 100⌋ ∧
    (awardResW.evolved = true ↔
      min 2 ⌊((mistyStudent.totalPoints : Int) : ℚ) / 100⌋ <
        min 2 ⌊((mistyStudent.totalPoints + 10 : Int) : ℚ) / 100⌋) ∧
    (200 ≤ mistyStudent.totalPoints + 10 → awardResW.newLevel = 2) :=
  awardPoints_evolution_spec storeBeforeAward 1 10 10 99 "d1" "t1" awardResW
    storeAfterAward mistyStudent (by decide) (by decide)

/-- Updating the first match leaves the first match in place (as its
image), for any update that does not change whether the predicate
holds. -/
theorem find?_updateFirst (p : α → Bool) (f : α → α) (l : List α)
    (hf : ∀ x, p (f x) = p x) :
    (updateFirst p f l).find? p = (l.find? p).map f := by
  induction l with
  | nil => rfl
  | cons x xs ih =>
    by_cases hx : p x
    · simp [updateFirst, hx, List.find?_cons, hf]
    · simp [updateFirst, hx, List.find?_cons, ih]

/-- One successful award against a store whose first student matching
the target id is `s` leaves that first match with `points` more and a
fresh `updatedAt`. -/
theorem applyAward_ok_step (st : Store) (c : AwardCall) (sid pts : Int)
    (r : AwardResult) (htgt : c.studentId = some sid) (hpts : c.points = some pts)
    (hr : (applyAward st c).1 = .ok r) (s : Student)
    (hs : st.students.find? (fun x => x.id == sid) = some s) :
    (applyAward st c).2.students.find? (fun x => x.id == sid) =
      some { s with totalPoints := s.totalPoints + pts, updatedAt := some c.nowISO } := by
  rcases ha : c.activityId with _ | aid
  · exfalso
    simp only [applyAward, htgt, hpts, ha, postActivities] at hr
    exact Except.noConfusion hr
  · have hfull : postActivities st (some sid) (some aid) (some pts)
        c.nowId c.nowDate c.nowISO = (.ok r, (applyAward st c).2) := by
      rw [← htgt, ← ha, ← hpts]
      exact Prod.ext hr rfl
    obtain ⟨s', a', hs', _, _, _, _, _, hupd, _, _, _, _⟩ :=
      postActivities_ok st sid aid pts c.nowId c.nowDate c.nowISO r
        (applyAward st c).2 hfull
    rw [hs'] at hs
    injection hs with he
    subst he
    have hfu := find?_updateFirst (fun x : Student => x.id == sid)
      (fun x => { x with totalPoints := x.totalPoints + pts, updatedAt := some c.nowISO })
      st.students (fun x => rfl)
    rw [hupd, hfu, hs']
    rfl

/-- C3: over any sequence of successful awards all targeting the same
student, with no other operations in between, that student's total
after the sequence is the initial total plus the sum of the awarded
points (the single-call case being the increment by exactly the points
argument). -/
theorem awardPoints_additive (st : Store) (calls : List AwardCall) (sid : Int)
    (s : Student) (htgt : ∀ c ∈ calls, c.studentId = some sid)
    (hok : awardsSucceed st calls = true)
    (hs : st.students.find? (fun x => x.id == sid) = some s) :
    ∃ s₂, (runAwards st calls).students.find? (fun x => x.id == sid) = some s₂ ∧
      s₂.totalPoints = s.totalPoints + (calls.map (fun c => c.points.getD 0)).sum := by
  induction calls generalizing st s with
  | nil => exact ⟨s, hs, by simp [runAwards]⟩
  | cons c cs ih =>
    rw [awardsSucceed] at hok
    rcases hr : (applyAward st c).1 with e | r
    · rw [hr] at hok
      simp at hok
    rw [hr] at hok
    rcases hp : c.points with _ | pts
    · exfalso
      rcases hsid : c.studentId with _ | sid₀ <;> rcases haid : c.activityId with _ | aid₀ <;>
        simp only [applyAward, postActivities, hsid, haid, hp] at hr <;>
        exact Except.noConfusion hr
    have hstep := applyAward_ok_step st c sid pts r (htgt c (by simp)) hp hr s hs
    obtain ⟨s₂, hfind₂, htot⟩ :=
      ih (applyAward st c).2 _ (fun d hd => htgt d (by simp [hd])) hok hstep
    refine ⟨s₂, ?_, ?_⟩
    · rw [runAwards]
      exact hfind₂
    · rw [htot]
      simp [hp]
      omega

/-- The two calls of the C3 witness: award 10 then 20 points to the
same student. -/
def callOne : AwardCall :=
  { studentId := some 1, activityId := some 10, points := some 10,
    nowId := 99, nowDate := "d1", nowISO := "t1" }

/-- Second witness call. -/
def callTwo : AwardCall :=
  { studentId := some 1, activityId := some 10, points := some 20,
    nowId := 100, nowDate := "d2", nowISO := "t2" }

/-- Witness for C3: after awarding 10 and 20 points, the student's
total is the initial 95 plus 30. -/
theorem awardPoints_additive_witness :
    ∃ s₂, (runAwards storeBeforeAward [callOne, callTwo]).students.find?
        (fun x => x.id == 1) = some s₂ ∧
      s₂.totalPoints = mistyStudent.totalPoints +
        ([callOne, callTwo].map (fun c => c.points.getD 0)).sum :=
  awardPoints_additive storeBeforeAward [callOne, callTwo] 1 mistyStudent
    (by decide) (by decide) (by decide)

/-- C4: a ranking query with a real category filter (not empty, not
"all") returns at most `limit` students, all of the filtered category,
in descending order of `totalPoints`, and its `total` is the number of
matching students before truncation. -/
theorem ranking_filter_sort_limit_total (students : List Student) (cat : String)
    (limit : Nat) (hne : cat ≠ "") (hall : cat ≠ "all") :
    (getRanking students (some cat) limit).1.length ≤ limit ∧
    (∀ s ∈ (getRanking students (some cat) limit).1, s.pokemonType = cat) ∧
    (getRanking students (some cat) limit).1.Pairwise
      (fun a b => b.totalPoints ≤ a.totalPoints) ∧
    (getRanking students (some cat) limit).2 =
      (students.filter (fun s => s.pokemonType == cat)).length := by
  have hcond : (cat ≠ "" ∧ cat ≠ "all") := ⟨hne, hall⟩
  have hget : getRanking students (some cat) limit =
      (((students.filter (fun s => s.pokemonType == cat)).insertionSort
          byPointsDesc).take limit,
        (students.filter (fun s => s.pokemonType == cat)).length) := by
    simp [getRanking, if_pos hcond]
  rw [hget]
  refine ⟨List.length_take_le limit _, ?_, ?_, rfl⟩
  · intro s hsmem
    have hsort : s ∈ (students.filter (fun x => x.pokemonType == cat)).insertionSort
        byPointsDesc := List.mem_of_mem_take hsmem
    have hfilt : s ∈ students.filter (fun x => x.pokemonType == cat) :=
      (List.perm_insertionSort byPointsDesc _).mem_iff.mp hsort
    have := List.of_mem_filter hfilt
    simpa using this
  · have hsorted : ((students.filter (fun s => s.pokemonType == cat)).insertionSort
        byPointsDesc).Pairwise byPointsDesc :=
      List.sorted_insertionSort byPointsDesc _
    exact List.Pairwise.sublist (List.take_sublist limit _) hsorted

/-- First roster entry: a Fire student. -/
def ashFire : Student :=
  { id := 1, name := "Ash", pokemonType := "Fire", totalPoints := 30,
    createdAt := "t0", updatedAt := none }

/-- Second roster entry: a Rock student. -/
def brockRock : Student :=
  { id := 2, name := "Brock", pokemonType := "Rock", totalPoints := 80,
    createdAt := "t0", updatedAt := none }

/-- Third roster entry: another Fire student. -/
def flintFire : Student :=
  { id := 3, name := "Flint", pokemonType := "Fire", totalPoints := 50,
    createdAt := "t0", updatedAt := none }

/-- A three-student registry with two Fire students, for the C4 and C5
witnesses. -/
def rankingRoster : List Student := [ashFire, brockRock, flintFire]

/-- Witness for C4 on a concrete three-student registry with two Fire
students and limit 1. -/
theorem ranking_filter_sort_limit_total_witness :
    (getRanking rankingRoster (some "Fire") 1).1.length ≤ 1 ∧
    (∀ s ∈ (getRanking rankingRoster (some "Fire") 1).1, s.pokemonType = "Fire") ∧
    (getRanking rankingRoster (some "Fire") 1).1.Pairwise
      (fun a b => b.totalPoints ≤ a.totalPoints) ∧
    (getRanking rankingRoster (some "Fire") 1).2 =
      (rankingRoster.filter (fun s => s.pokemonType == "Fire")).length :=
  ranking_filter_sort_limit_total rankingRoster "Fire" 1 (by decide) (by decide)

/-- Filtering out a key that no element carries removes nothing. -/
theorem filter_bne_eq_self {α : Type} (l : List α) (key : α → Int) (i : Int)
    (h : ∀ x ∈ l, key x ≠ i) : l.filter (fun x => key x != i) = l :=
  List.filter_eq_self.mpr (fun x hx => by simpa [bne_iff_ne] using h x hx)

/-- When keys are unique and one element carries the key, filtering that
key out removes exactly one element. -/
theorem length_filter_bne_nodup {α : Type} (l : List α) (key : α → Int) (i : Int)
    (x : α) (hnd : (l.map key).Nodup) (hx : x ∈ l) (hk : key x = i) :
    (l.filter (fun y => key y != i)).length + 1 = l.length := by
  induction l with
  | nil => cases hx
  | cons y ys ih =>
    rw [List.map_cons, List.nodup_cons] at hnd
    obtain ⟨hy, hnd₂⟩ := hnd
    rcases List.mem_cons.mp hx with rfl | hx₂
    · have hrest : ys.filter (fun z => key z != i) = ys := by
        refine filter_bne_eq_self ys key i (fun z hz hzi => ?_)
        exact hy (hk ▸ hzi ▸ List.mem_map_of_mem key hz)
      have hky : (key x != i) = false := by simp [hk]
      simp [List.filter_cons, hky, hrest]
    · have hkyne : key y ≠ i := by
        intro hyi
        exact hy (by
          have : key x ∈ ys.map key := List.mem_map_of_mem key hx₂
          rw [hk] at this
          rwa [hyi])
      have hky : (key y != i) = true := by simp [hkyne]
      have := ih hnd₂ hx₂
      simp only [List.filter_cons, hky, if_pos, List.length_cons]
      omega

/-- C5: deleting a nonexistent id answers NotFound and leaves the store
unchanged; deleting an existing id (under the data-model invariant that
ids are unique within the collection) succeeds, removes exactly one
record, keeps every other record in its relative order, and does not
touch the other documents — for both the student delete and the
activity-template delete. -/
theorem deleteById_spec (st : Store) (targetId : Int) :
    ((∀ s ∈ st.students, s.id ≠ targetId) →
      deleteStudent st (some targetId) = (.error .notFound, st)) ∧
    (∀ s ∈ st.students, s.id = targetId → (st.students.map Student.id).Nodup →
      (deleteStudent st (some targetId)).1 = .ok () ∧
      (deleteStudent st (some targetId)).2.students.length + 1 = st.students.length ∧
      (deleteStudent st (some targetId)).2.students.Sublist st.students ∧
      (∀ t ∈ st.students, t.id ≠ targetId →
        t ∈ (deleteStudent st (some targetId)).2.students) ∧
      (deleteStudent st (some targetId)).2.activities = st.activities ∧
      (deleteStudent st (some targetId)).2.createdActivities = st.createdActivities) ∧
    ((∀ a ∈ st.createdActivities, a.id ≠ targetId) →
      deleteCreatedActivity st (some targetId) = (.error .notFound, st)) ∧
    (∀ a ∈ st.createdActivities, a.id = targetId →
      (st.createdActivities.map ActivityTemplate.id).Nodup →
      (deleteCreatedActivity st (some targetId)).1 = .ok () ∧
      (deleteCreatedActivity st (some targetId)).2.createdActivities.length + 1 =
        st.createdActivities.length ∧
      (deleteCreatedActivity st (some targetId)).2.createdActivities.Sublist
        st.createdActivities ∧
      (∀ t ∈ st.createdActivities, t.id ≠ targetId →
        t ∈ (deleteCreatedActivity st (some targetId)).2.createdActivities) ∧
      (deleteCreatedActivity st (some targetId)).2.students = st.students ∧
      (deleteCreatedActivity st (some targetId)).2.activities = st.activities) := by
  refine ⟨?_, ?_, ?_, ?_⟩
  · intro h
    have hfe := filter_bne_eq_self st.students Student.id targetId h
    simp [deleteStudent, hfe]
  · intro s hmem hid hnd
    have hlen := length_filter_bne_nodup st.students Student.id targetId s hnd hmem hid
    have hne : (st.students.filter (fun y => y.id != targetId)).length ≠
        st.students.length := by omega
    simp only [deleteStudent, if_neg hne]
    refine ⟨by trivial, hlen, List.filter_sublist _, ?_, by trivial, by trivial⟩
    intro t ht htne
    exact List.mem_filter.mpr ⟨ht, by simpa [bne_iff_ne] using htne⟩
  · intro h
    have hfe := filter_bne_eq_self st.createdActivities ActivityTemplate.id targetId h
    simp [deleteCreatedActivity, hfe]
  · intro a hmem hid hnd
    have hlen := length_filter_bne_nodup st.createdActivities ActivityTemplate.id
      targetId a hnd hmem hid
    have hne : (st.createdActivities.filter (fun y => y.id != targetId)).length ≠
        st.createdActivities.length := by omega
    simp only [deleteCreatedActivity, if_neg hne]
    refine ⟨by trivial, hlen, List.filter_sublist _, ?_, by trivial, by trivial⟩
    intro t ht htne
    exact List.mem_filter.mpr ⟨ht, by simpa [bne_iff_ne] using htne⟩

/-- The store the C5 witness deletes from. -/
def deleteStore : Store :=
  { students := rankingRoster, activities := [], createdActivities := [] }

/-- Witness for C5: deleting the existing id 2 from a three-student
registry succeeds, removes exactly one record and keeps the others. -/
theorem deleteById_spec_witness :
    (deleteStudent deleteStore (some 2)).1 = .ok () ∧
    (deleteStudent deleteStore (some 2)).2.students.length + 1 =
      deleteStore.students.length ∧
    (deleteStudent deleteStore (some 2)).2.students.Sublist deleteStore.students ∧
    (∀ t ∈ deleteStore.students, t.id ≠ 2 →
      t ∈ (deleteStudent deleteStore (some 2)).2.students) ∧
    (deleteStudent deleteStore (some 2)).2.activities = deleteStore.activities ∧
    (deleteStudent deleteStore (some 2)).2.createdActivities =
      deleteStore.createdActivities :=
  (deleteById_spec deleteStore 2).2.1 brockRock (by decide) (by decide) (by decide)

/-- Every POST /api/students call either leaves the store unchanged or
succeeds. -/
theorem postStudents_frame_or_ok (st : Store) (name pokemonType : String)
    (nowId : Int) (nowISO : String) :
    (postStudents st name pokemonType nowId nowISO).2 = st ∨
    ∃ v, (postStudents st name pokemonType nowId nowISO).1 = Except.ok v := by
  unfold postStudents
  split
  · left; rfl
  · split
    · left; rfl
    · right; exact ⟨_, rfl⟩

/-- Every PUT /api/students/:id call either leaves the store unchanged
or succeeds. -/
theorem putStudent_frame_or_ok (st : Store) (idParam totalPoints : Option Int)
    (nowISO : String) :
    (putStudent st idParam totalPoints nowISO).2 = st ∨
    ∃ v, (putStudent st idParam totalPoints nowISO).1 = Except.ok v := by
  unfold putStudent
  split
  · left; rfl
  · split
    · left; rfl
    · split
      · right; exact ⟨_, rfl⟩
      · right; exact ⟨_, rfl⟩

/-- Every POST /api/activities call either leaves the store unchanged
or succeeds. -/
theorem postActivities_frame_or_ok (st : Store) (studentId activityId points : Option Int)
    (nowId : Int) (nowDate nowISO : String) :
    (postActivities st studentId activityId points nowId nowDate nowISO).2 = st ∨
    ∃ v, (postActivities st studentId activityId points nowId nowDate nowISO).1 =
      Except.ok v := by
  unfold postActivities
  split
  · split
    · left; rfl
    · split
      · left; rfl
      · split
        · left; rfl
        · split
          · left; rfl
          · right; exact ⟨_, rfl⟩
  · left; rfl

/-- Every POST /api/created-activities call either leaves the store
unchanged or succeeds. -/
theorem postCreatedActivities_frame_or_ok (st : Store) (name : String)
    (defaultPoints : Option Int) (description : Option String)
    (nowId : Int) (nowISO : String) :
    (postCreatedActivities st name defaultPoints description nowId nowISO).2 = st ∨
    ∃ v, (postCreatedActivities st name defaultPoints description nowId nowISO).1 =
      Except.ok v := by
  unfold postCreatedActivities
  split
  · left; rfl
  · split
    · left; rfl
    · split
      · left; rfl
      · split
        · left; rfl
        · right; exact ⟨_, rfl⟩

/-- Every DELETE /api/students/:id call either leaves the store
unchanged or succeeds. -/
theorem deleteStudent_frame_or_ok (st : Store) (idParam : Option Int) :
    (deleteStudent st idParam).2 = st ∨
    ∃ v, (deleteStudent st idParam).1 = Except.ok v := by
  unfold deleteStudent
  split
  · left; rfl
  · dsimp only
    split
    · left; rfl
    · right; exact ⟨_, rfl⟩

/-- Every DELETE /api/created-activities/:id call either leaves the
store unchanged or succeeds. -/
theorem deleteCreatedActivity_frame_or_ok (st : Store) (idParam : Option Int) :
    (deleteCreatedActivity st idParam).2 = st ∨
    ∃ v, (deleteCreatedActivity st idParam).1 = Except.ok v := by
  unfold deleteCreatedActivity
  split
  · left; rfl
  · dsimp only
    split
    · left; rfl
    · right; exact ⟨_, rfl⟩

/-- C10: whenever any handler answers an error (InvalidArgument,
Conflict or NotFound), the three persisted documents after the call are
exactly the documents before it. -/
theorem errors_leave_store_unchanged (st : Store) :
    (∀ name pokemonType nowId nowISO e,
      (postStudents st name pokemonType nowId nowISO).1 = Except.error e →
      (postStudents st name pokemonType nowId nowISO).2 = st) ∧
    (∀ idParam totalPoints nowISO e,
      (putStudent st idParam totalPoints nowISO).1 = Except.error e →
      (putStudent st idParam totalPoints nowISO).2 = st) ∧
    (∀ studentId activityId points nowId nowDate nowISO e,
      (postActivities st studentId activityId points nowId nowDate nowISO).1 =
        Except.error e →
      (postActivities st studentId activityId points nowId nowDate nowISO).2 = st) ∧
    (∀ name defaultPoints description nowId nowISO e,
      (postCreatedActivities st name defaultPoints description nowId nowISO).1 =
        Except.error e →
      (postCreatedActivities st name defaultPoints description nowId nowISO).2 = st) ∧
    (∀ idParam e, (deleteStudent st idParam).1 = Except.error e →
      (deleteStudent st idParam).2 = st) ∧
    (∀ idParam e, (deleteCreatedActivity st idParam).1 = Except.error e →
      (deleteCreatedActivity st idParam).2 = st) := by
  refine ⟨?_, ?_, ?_, ?_, ?_, ?_⟩
  · intro name pokemonType nowId nowISO e h
    rcases postStudents_frame_or_ok st name pokemonType nowId nowISO with hf | ⟨v, hv⟩
    · exact hf
    · rw [hv] at h; exact Except.noConfusion h
  · intro idParam totalPoints nowISO e h
    rcases putStudent_frame_or_ok st idParam totalPoints nowISO with hf | ⟨v, hv⟩
    · exact hf
    · rw [hv] at h; exact Except.noConfusion h
  · intro studentId activityId points nowId nowDate nowISO e h
    rcases postActivities_frame_or_ok st studentId activityId points nowId nowDate nowISO
      with hf | ⟨v, hv⟩
    · exact hf
    · rw [hv] at h; exact Except.noConfusion h
  · intro name defaultPoints description nowId nowISO e h
    rcases postCreatedActivities_frame_or_ok st name defaultPoints description nowId nowISO
      with hf | ⟨v, hv⟩
    · exact hf
    · rw [hv] at h; exact Except.noConfusion h
  · intro idParam e h
    rcases deleteStudent_frame_or_ok st idParam with hf | ⟨v, hv⟩
    · exact hf
    · rw [hv] at h; exact Except.noConfusion h
  · intro idParam e h
    rcases deleteCreatedActivity_frame_or_ok st idParam with hf | ⟨v, hv⟩
    · exact hf
    · rw [hv] at h; exact Except.noConfusion h

/-- Witness for C10: a NotFound delete against the one-student store
leaves it unchanged. -/
theorem errors_leave_store_unchanged_witness :
    (deleteStudent storeWithAsh (some 5)).2 = storeWithAsh :=
  (errors_leave_store_unchanged storeWithAsh).2.2.2.2.1 (some 5) ApiError.notFound
    (by decide)

/-- The `reduce`-style running sum of totals is the list sum. -/
theorem foldl_add_totalPoints (l : List Student) (a : Int) :
    l.foldl (fun (sum : Int) s => sum + s.totalPoints) a =
      a + (l.map Student.totalPoints).sum := by
  induction l generalizing a with
  | nil => simp
  | cons x xs ih =>
    rw [List.foldl_cons, ih, List.map_cons, List.sum_cons]
    omega

/-- The `reduce`-style counting object, read at one key, counts the
elements carrying that key. -/
theorem foldl_bumpCount {α β : Type} [DecidableEq β] (key : α → β) (l : List α)
    (acc : β → Nat) (c : β) :
    (l.foldl (fun counts x => bumpCount counts (key x)) acc) c =
      acc c + l.countP (fun x => key x == c) := by
  induction l generalizing acc with
  | nil => simp
  | cons x xs ih =>
    rw [List.foldl_cons, ih, List.countP_cons]
    by_cases hc : c = key x
    · simp [bumpCount, hc]
      omega
    · have hne : (key x == c) = false := by simp [Ne.symm hc]
      simp [bumpCount, hc, hne]

/-- Floor division by 100 is the rational floor of division by 100. -/
theorem fdiv_hundred_eq_floor (t : Int) : Int.fdiv t 100 = ⌊(t : ℚ) / 100⌋ := by
  have := fdiv_eq_ratFloor t 100 (by norm_num)
  rwa [Nat.cast_ofNat] at this

/-- JS `Math.round` on the exact rational quotient agrees with the rounding
of the embedding (`⌊(2n + d) / 2d⌋`). -/
theorem jsRound_eq_round (n : Int) (d : Nat) (hd : 0 < d) :
    jsRound n d = round ((n : ℚ) / (d : ℚ)) := by
  have hd0 : (d : ℚ) ≠ 0 := by positivity
  have hq : (n : ℚ) / d + 1 / 2 = (((2 * n + d : Int) : ℚ)) / (((2 * d : Nat)) : ℚ) := by
    push_cast
    field_simp
    ring
  rw [round_eq, hq, ← fdiv_eq_ratFloor _ _ (by omega), jsRound]
  congr 1

/-- C6: the stats payload reports the student count, the sum of all
totals, the rounded average (0 on an empty registry), and distribution
counts per category and per capped level; on the empty registry all of
these are zero. -/
theorem stats_spec (st : Store) :
    (getStats st).totalStudents = st.students.length ∧
    (getStats st).totalPoints = (st.students.map Student.totalPoints).sum ∧
    (st.students.length = 0 → (getStats st).averagePoints = 0) ∧
    (st.students.length ≠ 0 → (getStats st).averagePoints =
      round (((st.students.map Student.totalPoints).sum : ℚ) /
        (st.students.length : ℚ))) ∧
    (∀ c, (getStats st).pokemonDistribution c =
      st.students.countP (fun s => s.pokemonType == c)) ∧
    (∀ lv, (getStats st).evolutionDistribution lv =
      st.students.countP (fun s => (min 2 ⌊((s.totalPoints : Int) : ℚ) / 100⌋) == lv)) ∧
    (st.students = [] → (getStats st).totalStudents = 0 ∧
      (getStats st).averagePoints = 0 ∧
      (∀ c, (getStats st).pokemonDistribution c = 0) ∧
      (∀ lv, (getStats st).evolutionDistribution lv = 0)) := by
  have hsum := foldl_add_totalPoints st.students 0
  rw [zero_add] at hsum
  refine ⟨rfl, ?_, ?_, ?_, ?_, ?_, ?_⟩
  · simpa [getStats] using hsum
  · intro h
    simp [getStats, h]
  · intro h
    have hlen : 0 < st.students.length := Nat.pos_of_ne_zero h
    simp only [getStats, if_pos hlen]
    rw [hsum, jsRound_eq_round _ _ hlen]
  · intro c
    simp only [getStats]
    rw [foldl_bumpCount (fun s => s.pokemonType) st.students (fun _ => 0) c, Nat.zero_add]
  · intro lv
    simp only [getStats]
    rw [foldl_bumpCount (fun s => levelOf s.totalPoints) st.students (fun _ => 0) lv,
      Nat.zero_add]
    refine List.countP_congr (fun s _ => ?_)
    have : levelOf s.totalPoints = min 2 ⌊((s.totalPoints : Int) : ℚ) / 100⌋ := by
      rw [levelOf, fdiv_hundred_eq_floor]
    rw [this]
  · intro h
    refine ⟨by simp [getStats, h], by simp [getStats, h], ?_, ?_⟩
    · intro c
      simp [getStats, h]
    · intro lv
      simp [getStats, h]

/-- Witness for C6 on the three-student roster. -/
theorem stats_spec_witness :
    (getStats deleteStore).totalStudents = deleteStore.students.length ∧
    (getStats deleteStore).averagePoints =
      round (((deleteStore.students.map Student.totalPoints).sum : ℚ) /
        (deleteStore.students.length : ℚ)) :=
  ⟨(stats_spec deleteStore).1,
   (stats_spec deleteStore).2.2.2.1 (by decide)⟩

/-! ### Round trip of the serialized documents -/

/-- A character list that does not start with a decimal digit (so a
number parse stops exactly there). -/
def noLeadDigit : List Char → Bool
  | [] => true
  | c :: _ => !c.isDigit

/-- Decimal digit characters are digits. -/
theorem decDigit_isDigit : ∀ d, d < 10 → (decDigit d).isDigit = true := by decide

/-- Code point of a decimal digit character. -/
theorem decDigit_toNat : ∀ d, d < 10 → (decDigit d).toNat = 48 + d := by decide

/-- Parsing digits past a non-digit head changes nothing. -/
theorem parseNatDigits_stop (rest : List Char) (acc : Nat)
    (h : noLeadDigit rest = true) : parseNatDigits rest acc = (acc, rest) := by
  cases rest with
  | nil => rfl
  | cons c cs =>
    have hc : c.isDigit = false := by
      simpa [noLeadDigit] using h
    rw [parseNatDigits, if_neg (by simp [hc])]

/-- The decimal digits of `n` are nonempty. -/
theorem natDigits_ne_nil (n : Nat) : natDigits n ≠ [] := by
  rw [natDigits]
  split <;> simp

/-- Every character serialized for `n` is a digit. -/
theorem natDigits_digits (n : Nat) : ∀ c ∈ natDigits n, c.isDigit = true := by
  induction n using Nat.strong_induction_on with
  | _ n ih =>
    rw [natDigits]
    split
    · next h =>
      intro c hc
      rw [List.mem_singleton] at hc
      subst hc
      exact decDigit_isDigit n h
    · next h =>
      intro c hc
      rcases List.mem_append.mp hc with h₁ | h₂
      · exact ih (n / 10) (Nat.div_lt_self (by omega) (by omega)) c h₁
      · rw [List.mem_singleton] at h₂
        subst h₂
        exact decDigit_isDigit _ (by omega)

/-- Consuming the serialized digits of `n` multiplies the accumulator by
the corresponding power of ten and adds `n`. -/
theorem parseNatDigits_append (n : Nat) : ∀ (acc : Nat) (rest : List Char),
    parseNatDigits (natDigits n ++ rest) acc =
      parseNatDigits rest (acc * 10 ^ (natDigits n).length + n) := by
  induction n using Nat.strong_induction_on with
  | _ n ih =>
    intro acc rest
    rw [natDigits]
    split
    · next h =>
      rw [List.singleton_append, parseNatDigits,
        if_pos (decDigit_isDigit n h)]
      have hv : (decDigit n).toNat - 48 = n := by
        rw [decDigit_toNat n h]
        omega
      rw [hv]
      simp
    · next h =>
      rw [List.append_assoc, ih (n / 10) (Nat.div_lt_self (by omega) (by omega)),
        List.singleton_append, parseNatDigits,
        if_pos (decDigit_isDigit _ (by omega))]
      have hv : (decDigit (n % 10)).toNat - 48 = n % 10 := by
        rw [decDigit_toNat _ (by omega)]
        omega
      rw [hv]
      congr 1
      have hlen : (natDigits (n / 10) ++ [decDigit (n % 10)]).length =
          (natDigits (n / 10)).length + 1 := by simp
      rw [hlen]
      have hsplit : (acc * 10 ^ (natDigits (n / 10)).length + n / 10) * 10 +
          (n % 10) = acc * (10 ^ (natDigits (n / 10)).length * 10) +
          (n / 10 * 10 + n % 10) := by ring
      rw [hsplit, ← pow_succ]
      have hdm : n / 10 * 10 + n % 10 = n := by omega
      rw [hdm]

/-- Parsing the serialized digits of `n` yields `n` when what follows
does not start with a digit. -/
theorem parseNat_natDigits (n : Nat) (rest : List Char)
    (h : noLeadDigit rest = true) :
    parseNat (natDigits n ++ rest) = some (n, rest) := by
  rcases hnd : natDigits n with _ | ⟨c, cs⟩
  · exact absurd hnd (natDigits_ne_nil n)
  · have hc : c.isDigit = true :=
      natDigits_digits n c (by rw [hnd]; exact List.mem_cons_self c cs)
    rw [List.cons_append, parseNat, if_pos hc, ← List.cons_append, ← hnd,
      parseNatDigits_append, parseNatDigits_stop rest _ h]
    simp

/-- Digits are not the minus sign. -/
theorem isDigit_ne_minus (c : Char) (h : c.isDigit = true) : ¬ c = '-' := by
  intro hc
  subst hc
  simp at h

/-- Parsing the serialized integer `i` yields `i` when what follows does
not start with a digit. -/
theorem parseIntChars_serializeInt (i : Int) (rest : List Char)
    (h : noLeadDigit rest = true) :
    parseIntChars (serializeInt i ++ rest) = some (i, rest) := by
  rw [serializeInt]
  split
  · next hneg =>
    rw [List.cons_append, parseIntChars, if_pos rfl,
      parseNat_natDigits _ _ h]
    have : -((i.natAbs : Nat) : Int) = i := by omega
    show some (-((i.natAbs : Nat) : Int), rest) = some (i, rest)
    rw [this]
  · next hpos =>
    rcases hnd : natDigits i.toNat with _ | ⟨c, cs⟩
    · exact absurd hnd (natDigits_ne_nil _)
    · have hc : c.isDigit = true :=
        natDigits_digits _ c (by rw [hnd]; exact List.mem_cons_self c cs)
      rw [List.cons_append, parseIntChars, if_neg (isDigit_ne_minus c hc),
        ← List.cons_append, ← hnd, parseNat_natDigits _ _ h]
      have : ((i.toNat : Nat) : Int) = i := by omega
      show some (((i.toNat : Nat) : Int), rest) = some (i, rest)
      rw [this]

/-- Hexadecimal digits evaluate back to their value. -/
theorem hexVal_hexDigit : ∀ v, v < 16 → hexVal (hexDigit v) = some v := by decide

/-- Decoding inverts the escape of one character followed by the rest
of the string body. -/
theorem parseStringBody_escape (s : List Char) : ∀ rest : List Char,
    parseStringBody (escapeChars s ++ '"' :: rest) = some (s, rest) := by
  induction s with
  | nil =>
    intro rest
    rw [escapeChars, List.nil_append, parseStringBody.eq_def]
    simp
  | cons c cs ih =>
    intro rest
    rw [escapeChars, List.append_assoc]
    by_cases h1 : c = '"'
    · subst h1
      rw [show escapeChar '"' = ['\\', '"'] from rfl]
      rw [parseStringBody.eq_def]
      simp [unescapeChar, ih]
    by_cases h2 : c = '\\'
    · subst h2
      rw [show escapeChar '\\' = ['\\', '\\'] from rfl]
      rw [parseStringBody.eq_def]
      simp [unescapeChar, ih]
    by_cases h3 : c = '\n'
    · subst h3
      rw [show escapeChar '\n' = ['\\', 'n'] from rfl]
      rw [parseStringBody.eq_def]
      simp [unescapeChar, ih]
    by_cases h4 : c = '\r'
    · subst h4
      rw [show escapeChar '\r' = ['\\', 'r'] from rfl]
      rw [parseStringBody.eq_def]
      simp [unescapeChar, ih]
    by_cases h5 : c = '\t'
    · subst h5
      rw [show escapeChar '\t' = ['\\', 't'] from rfl]
      rw [parseStringBody.eq_def]
      simp [unescapeChar, ih]
    by_cases h6 : c = Char.ofNat 8
    · subst h6
      rw [show escapeChar (Char.ofNat 8) = ['\\', 'b'] from rfl]
      rw [parseStringBody.eq_def]
      simp [unescapeChar, ih]
    by_cases h7 : c = Char.ofNat 12
    · subst h7
      rw [show escapeChar (Char.ofNat 12) = ['\\', 'f'] from rfl]
      rw [parseStringBody.eq_def]
      simp [unescapeChar, ih]
    by_cases h8 : c.toNat < 32
    · rw [show escapeChar c =
          ['\\', 'u', '0', '0', hexDigit (c.toNat / 16), hexDigit (c.toNat % 16)] from by
        simp [escapeChar, h1, h2, h3, h4, h5, h6, h7, h8]]
      have h0 : hexVal '0' = some 0 := by decide
      have hhi := hexVal_hexDigit (c.toNat / 16) (by omega)
      have hlo := hexVal_hexDigit (c.toNat % 16) (by omega)
      rw [parseStringBody.eq_def]
      simp [h0, hhi, hlo, ih]
      have harith₂ : c.toNat / 16 * 16 + c.toNat % 16 = c.toNat := by omega
      rw [harith₂, Char.ofNat_toNat]
    · rw [show escapeChar c = [c] from by
        simp [escapeChar, h1, h2, h3, h4, h5, h6, h7, h8]]
      rw [List.singleton_append, parseStringBody.eq_def]
      simp [if_neg h1, if_neg h2, ih]

/-- Rebuilding a string from its characters is the identity. -/
theorem string_mk_data (s : String) : String.mk s.data = s := by
  rcases s with ⟨l⟩
  rfl

/-- A serialized integer is never empty. -/
theorem serializeInt_ne_nil (i : Int) : serializeInt i ≠ [] := by
  rw [serializeInt]
  split
  · simp
  · exact natDigits_ne_nil _

/-- Digits are not the quote character. -/
theorem isDigit_ne_quote (c : Char) (h : c.isDigit = true) : ¬ c = '"' := by
  intro hc
  subst hc
  simp at h

/-- A serialized integer never starts with a quote. -/
theorem serializeInt_head_ne_quote (i : Int) (c : Char) (cs : List Char)
    (h : serializeInt i = c :: cs) : ¬ c = '"' := by
  rw [serializeInt] at h
  split at h
  · injection h with h₁ h₂
    subst h₁
    decide
  · have hc : c.isDigit = true :=
      natDigits_digits _ c (by rw [h]; exact List.mem_cons_self c cs)
    exact isDigit_ne_quote c hc

/-- Parsing the serialized value yields the value when what follows
does not start with a digit. -/
theorem parseJValue_serialize (v : JValue) (rest : List Char)
    (h : noLeadDigit rest = true) :
    parseJValue (serializeJValue v ++ rest) = some (v, rest) := by
  cases v with
  | jstr s =>
    rw [serializeJValue, List.cons_append, List.append_assoc,
      List.singleton_append, parseJValue.eq_def]
    simp [parseStringBody_escape s.data rest, string_mk_data]
  | jint i =>
    rcases hsi : serializeInt i with _ | ⟨c, cs⟩
    · exact absurd hsi (serializeInt_ne_nil i)
    · rw [serializeJValue, hsi, List.cons_append, parseJValue.eq_def]
      simp only [if_neg (serializeInt_head_ne_quote i c cs hsi)]
      rw [← List.cons_append, ← hsi, parseIntChars_serializeInt i rest h]

/-- Parsing the serialized field yields the field when what follows
does not start with a digit. -/
theorem parseField_serialize (f : String × JValue) (rest : List Char)
    (h : noLeadDigit rest = true) :
    parseField (serializeField f ++ rest) = some (f, rest) := by
  rw [serializeField, List.cons_append, parseField.eq_def]
  have hshape : (escapeChars f.1.data ++ ['"', ':'] ++ serializeJValue f.2) ++ rest =
      escapeChars f.1.data ++ '"' :: (':' :: (serializeJValue f.2 ++ rest)) := by
    simp
  rw [hshape]
  simp [parseStringBody_escape f.1.data (':' :: (serializeJValue f.2 ++ rest)),
    parseJValue_serialize f.2 rest h, string_mk_data]

/-- The joined remaining fields, followed by the closing brace, never
start with a digit. -/
theorem noLeadDigit_joinFields (fs : List (String × JValue)) (rest : List Char) :
    noLeadDigit (joinFields fs ++ '}' :: rest) = true := by
  cases fs with
  | nil => simp [joinFields, noLeadDigit]
  | cons f fs => simp [joinFields, noLeadDigit]

/-- The joined remaining records, followed by the closing bracket, never
start with a digit. -/
theorem noLeadDigit_joinRecords (rs : JDoc) (rest : List Char) :
    noLeadDigit (joinRecords rs ++ ']' :: rest) = true := by
  cases rs with
  | nil => simp [joinRecords, noLeadDigit]
  | cons r rs => simp [joinRecords, noLeadDigit]

/-- Parsing the joined tail of a record's fields returns those fields,
for any fuel at least their number. -/
theorem parseFieldsTail_join (fs : List (String × JValue)) :
    ∀ (fuel : Nat) (rest : List Char), fs.length ≤ fuel →
    parseFieldsTail fuel (joinFields fs ++ '}' :: rest) = some (fs, rest) := by
  induction fs with
  | nil =>
    intro fuel rest _
    rw [joinFields, List.nil_append]
    cases fuel <;> rw [parseFieldsTail.eq_def] <;> simp
  | cons f fs ih =>
    intro fuel rest hlen
    rcases fuel with _ | fuel₂
    · simp at hlen
    · rw [joinFields, List.cons_append, List.append_assoc, parseFieldsTail.eq_def]
      simp [parseField_serialize f _ (noLeadDigit_joinFields fs rest),
        ih fuel₂ rest (by simpa using hlen)]

/-- Parsing the serialized body of a record returns its fields, for any
fuel at least their number. -/
theorem parseRecordBody_serialize (r : List (String × JValue)) (fuel : Nat)
    (rest : List Char) (hlen : r.length ≤ fuel) :
    parseRecordBody fuel (serializeFields r ++ '}' :: rest) = some (r, rest) := by
  cases r with
  | nil =>
    rw [serializeFields, List.nil_append, parseRecordBody.eq_def]
    simp
  | cons f fs =>
    have hsf : serializeField f =
        '"' :: (escapeChars f.1.data ++ ['"', ':'] ++ serializeJValue f.2) := rfl
    rw [serializeFields, List.append_assoc, hsf, List.cons_append,
      parseRecordBody.eq_def]
    simp only []
    rw [if_neg (by decide : ¬ '"' = '}'), ← List.cons_append, ← hsf]
    simp [parseField_serialize f _ (noLeadDigit_joinFields fs rest),
      parseFieldsTail_join fs fuel rest (by simp at hlen; omega)]

/-- Parsing a serialized record returns it, for any fuel at least its
field count. -/
theorem parseRecord_serialize (r : List (String × JValue)) (fuel : Nat)
    (rest : List Char) (hlen : r.length ≤ fuel) :
    parseRecord fuel (serializeRecord r ++ rest) = some (r, rest) := by
  rw [serializeRecord, List.cons_append, List.append_assoc, List.singleton_append,
    parseRecord.eq_def]
  simp [parseRecordBody_serialize r fuel rest hlen]

/-- The fuel a document needs: one unit per record plus its field
count. -/
def docWeight : JDoc → Nat
  | [] => 0
  | r :: rs => 1 + r.length + docWeight rs

/-- Parsing the joined tail of the record array returns those records,
for any fuel at least their weight. -/
theorem parseRecordsTail_join (rs : JDoc) :
    ∀ (fuel : Nat) (rest : List Char), docWeight rs ≤ fuel →
    parseRecordsTail fuel (joinRecords rs ++ ']' :: rest) = some (rs, rest) := by
  induction rs with
  | nil =>
    intro fuel rest _
    rw [joinRecords, List.nil_append]
    cases fuel <;> rw [parseRecordsTail.eq_def] <;> simp
  | cons r rs ih =>
    intro fuel rest hw
    rcases fuel with _ | fuel₂
    · rw [docWeight] at hw
      omega
    · rw [joinRecords, List.cons_append, List.append_assoc, parseRecordsTail.eq_def]
      simp [parseRecord_serialize r (fuel₂ + 1) _ (by rw [docWeight] at hw; omega),
        ih fuel₂ rest (by rw [docWeight] at hw; omega)]

/-- Parsing the serialized record array returns it, for any fuel at
least its weight. -/
theorem parseRecordsStart_serialize (d : JDoc) (fuel : Nat) (rest : List Char)
    (hw : docWeight d ≤ fuel) :
    parseRecordsStart fuel (serializeRecords d ++ ']' :: rest) = some (d, rest) := by
  cases d with
  | nil =>
    rw [serializeRecords, List.nil_append, parseRecordsStart.eq_def]
    simp
  | cons r rs =>
    have hsr : serializeRecord r = '{' :: (serializeFields r ++ ['}']) := rfl
    rw [serializeRecords, List.append_assoc, hsr, List.cons_append,
      parseRecordsStart.eq_def]
    simp only []
    rw [if_neg (by decide : ¬ '{' = ']'), ← List.cons_append, ← hsr]
    simp [parseRecord_serialize r fuel _ (by rw [docWeight] at hw; omega),
      parseRecordsTail_join rs fuel rest (by rw [docWeight] at hw; omega)]

/-- A record's serialized fields are at least as many characters as it
has fields. -/
theorem joinFields_length (fs : List (String × JValue)) :
    fs.length ≤ (joinFields fs).length := by
  induction fs with
  | nil => simp [joinFields]
  | cons f fs ih =>
    rw [joinFields]
    simp only [List.length_cons, List.length_append]
    omega

/-- A record body is at least as many characters as it has fields. -/
theorem serializeFields_length (r : List (String × JValue)) :
    r.length ≤ (serializeFields r).length := by
  cases r with
  | nil => simp [serializeFields]
  | cons f fs =>
    rw [serializeFields]
    have hf : 1 ≤ (serializeField f).length := by
      rw [show serializeField f =
        '"' :: (escapeChars f.1.data ++ ['"', ':'] ++ serializeJValue f.2) from rfl]
      simp
    have := joinFields_length fs
    simp only [List.length_cons, List.length_append]
    omega

/-- The joined remaining records are at least as many characters as
their weight. -/
theorem joinRecords_length (rs : JDoc) :
    docWeight rs ≤ (joinRecords rs).length := by
  induction rs with
  | nil => simp [joinRecords, docWeight]
  | cons r rs ih =>
    rw [joinRecords, docWeight]
    have hr : 2 + r.length ≤ (serializeRecord r).length := by
      rw [serializeRecord]
      have := serializeFields_length r
      simp only [List.length_cons, List.length_append, List.length_singleton]
      omega
    simp only [List.length_cons, List.length_append]
    omega

/-- A document's weight is bounded by its serialized length. -/
theorem docWeight_le_length (d : JDoc) :
    docWeight d ≤ (serializeRecords d).length := by
  cases d with
  | nil => simp [serializeRecords, docWeight]
  | cons r rs =>
    rw [serializeRecords, docWeight]
    have hr : 2 + r.length ≤ (serializeRecord r).length := by
      rw [serializeRecord]
      have := serializeFields_length r
      simp only [List.length_cons, List.length_append, List.length_singleton]
      omega
    have := joinRecords_length rs
    simp only [List.length_append]
    omega

/-- JSON.parse inverts JSON.stringify on every stored document. -/
theorem parseDoc_stringifyDoc (d : JDoc) : parseDoc (stringifyDoc d) = some d := by
  rw [parseDoc, stringifyDoc]
  have hdata : (String.mk ('[' :: (serializeRecords d ++ [']']))).data =
      '[' :: (serializeRecords d ++ [']']) := rfl
  rw [hdata, parseDocChars.eq_def]
  simp only []
  have hfuel : docWeight d ≤ (serializeRecords d ++ [']']).length := by
    have := docWeight_le_length d
    simp only [List.length_append]
    omega
  have hshape : serializeRecords d ++ [']'] = serializeRecords d ++ ']' :: [] := rfl
  rw [hshape, parseRecordsStart_serialize d _ [] hfuel]

/-- C8: saving any document of the modeled field types to a path and
loading it back from that path yields a value deep-equal to the value
saved. -/
theorem save_load_roundtrip (fs : FileStore) (filePath : String) (d : JDoc)
    (defaultValue : JDoc) :
    readJSONDoc (writeJSONFile fs filePath d) filePath defaultValue = d := by
  rw [readJSONDoc, fsRead]
  simp only [writeJSONFile, if_pos rfl]
  rw [readJSONFile.eq_def]
  simp [jsonParseDoc, parseDoc_stringifyDoc]

end StudentSystem
